import Mathlib

/-!
Verification of the 2048 board engine (`dqn_2048/game/environment/state.py`
and `state_builder.py`).

The board is a square grid of integer tiles.  The empty sentinel is `0`.
Python `int` values become `Int`; sizes and indices become `Nat`
(Python `range`/list-replication of a negative count yields the empty
result, which `Nat` truncation matches).  Python methods that can raise
`IndexError` are modelled in the `Option` monad; methods that Python
guarantees to succeed are total functions.  The single source of
randomness, `random.choice`, is modelled by an extra `Nat` parameter
selecting (modulo the list length) which element of the candidate list
is chosen, so theorems quantify over every possible random outcome.
-/

namespace DQN2048

/-- The four collapsing directions (`direction.py`). -/
inductive Direction where
  | up
  | down
  | left
  | right
deriving DecidableEq, Repr

/-- `State._EMPTY = 0`, the empty-cell sentinel. -/
def EMPTY : Int := 0

/-- The board state: `size`, `unit` and the grid (`State.__init__` fields). -/
structure State where
  size : Nat
  unit : Int
  board : List (List Int)
deriving DecidableEq, Repr

/-- In-place assignment `board[r][c] = v` on a nested Python list. -/
def setNested (board : List (List Int)) (r c : Nat) (v : Int) :
    List (List Int) :=
  board.set r ((board.getD r []).set c v)

/-- `State.__init__(size, unit)`: a `size` x `size` grid of empty cells. -/
def State.init (size : Nat) (unit : Int) : State :=
  ⟨size, unit, List.replicate size (List.replicate size EMPTY)⟩

/-- One iteration of the accumulation loop inside `State._collapse`:
skip an empty element; merge a non-empty element into the last slot when
it equals it and that slot was not itself just produced by a merge;
otherwise append it as a new slot. -/
def collapseStep (empty_element : Int) (st : List Int × Bool)
    (element : Int) : List Int × Bool :=
  if element = empty_element then st
  else
    match st.1.getLast? with
    | some last_element =>
        if element = last_element ∧ st.2 = false then
          (st.1.dropLast ++ [last_element + element], true)
        else
          (st.1 ++ [element], false)
    | none => (st.1 ++ [element], false)

/-- `State._collapse(array, empty_element)`: slide all elements toward the
lower index, merging equal colliding pairs at most once per slot, then pad
on the right with the empty sentinel back to the original length. -/
def State._collapse (array : List Int) (empty_element : Int) : List Int :=
  let r := array.foldl (collapseStep empty_element) ([], false)
  r.1 ++ List.replicate (array.length - r.1.length) empty_element

/-- `State._peel(direction, index)`: extract row `index` (LEFT/RIGHT) or
column `index` (UP/DOWN) from the grid, reversed for RIGHT/DOWN so the
collapse always works toward the lower index. -/
def State._peel (board : List (List Int)) (direction : Direction)
    (index : Nat) : List Int :=
  let array :=
    if direction = Direction.left ∨ direction = Direction.right then
      board.getD index []
    else
      board.map (fun row => row.getD index 0)
  if direction = Direction.right ∨ direction = Direction.down then
    array.reverse
  else
    array

/-- `State._paved(direction, index, array)`: truncate `array` to `size`,
reverse it for RIGHT/DOWN, and write its elements cell by cell into row
`index` (LEFT/RIGHT) or column `index` (UP/DOWN) of the grid. -/
def State._paved (board : List (List Int)) (size : Nat)
    (direction : Direction) (index : Nat) (array : List Int) :
    List (List Int) :=
  let array := array.take size
  let array :=
    if direction = Direction.right ∨ direction = Direction.down then
      array.reverse
    else
      array
  array.enum.foldl
    (fun b p =>
      if direction = Direction.left ∨ direction = Direction.right then
        setNested b index p.1 p.2
      else
        setNested b p.1 index p.2)
    board

/-- `State.clone()`: `copy.deepcopy(self)`; on the pure value level the
copy is the same value (the heap-level independence of the copy is
modelled separately by `deepcopy` on `Store`). -/
def State.clone (s : State) : State := s

/-- `State.collapsed(direction)`: collapse every line of the board in the
given direction and report whether the grid changed, by comparison with a
clone taken beforehand (`self != old_state`, where `__eq__` compares the
grids). -/
def State.collapsed (s : State) (direction : Direction) : State × Bool :=
  let old_state := s.clone
  let newBoard :=
    (List.range s.size).foldl
      (fun b i =>
        let collapsed_array :=
          State._collapse (State._peel b direction i) EMPTY
        State._paved b s.size direction i collapsed_array)
      s.board
  (⟨s.size, s.unit, newBoard⟩, newBoard != old_state.board)

/-- `State.seeded()`: collect the flattened indices of all empty cells;
if there are none return the empty sentinel and leave the grid untouched,
otherwise write `unit` into the randomly chosen empty cell (row
`index // size`, column `index % size`) and return `unit`.  The random
choice is modelled by the parameter `k`. -/
def State.seeded (s : State) (k : Nat) : State × Int :=
  let flattened_board := s.board.flatten
  let empty_indices :=
    (flattened_board.enum.filter (fun p => p.2 = EMPTY)).map Prod.fst
  if empty_indices.length = 0 then
    (s, EMPTY)
  else
    let index := empty_indices.getD (k % empty_indices.length) 0
    (⟨s.size, s.unit,
        setNested s.board (index / s.size) (index % s.size) s.unit⟩,
      s.unit)

/-- The condition tested for one position `j` of row/column `i` inside
`State.is_collapsible`, with Python's left-to-right short-circuit
evaluation and its possibly-failing index accesses made explicit:
`row[j] == EMPTY or column[j] == EMPTY or j < size and
(row[j] == row[j + 1] or column[j] == column[j + 1])`. -/
def collapsibleCheck (size : Nat) (row column : List Int) (j : Nat) :
    Option Bool := do
  let rj ← row.get? j
  if rj = EMPTY then return true
  let cj ← column.get? j
  if cj = EMPTY then return true
  if j < size then
    let rj1 ← row.get? (j + 1)
    if rj = rj1 then return true
    let cj1 ← column.get? (j + 1)
    if cj = cj1 then return true
    return false
  else
    return false

/-- The inner `for j in range(size)` loop of `State.is_collapsible`:
returns `true` as soon as one check succeeds, propagates an
`IndexError` (`none`) raised by a check. -/
def collapsibleInner (size : Nat) (row column : List Int) :
    List Nat → Option Bool
  | [] => some false
  | j :: js => do
      let c ← collapsibleCheck size row column j
      if c then return true else collapsibleInner size row column js

/-- The outer `for i in range(size)` loop of `State.is_collapsible`. -/
def collapsibleOuter (s : State) : List Nat → Option Bool
  | [] => some false
  | i :: is' => do
      let row := s.board.getD i []
      let column := s.board.map (fun r => r.getD i 0)
      let c ← collapsibleInner s.size row column (List.range s.size)
      if c then return true else collapsibleOuter s is'

/-- `State.is_collapsible()`: scans every row/column pair; `none` models
an uncaught `IndexError`. -/
def State.is_collapsible (s : State) : Option Bool :=
  collapsibleOuter s (List.range s.size)

/-- `StateBuilder`: fluent builder holding `size` and `unit`. -/
structure StateBuilder where
  size : Nat
  unit : Int
deriving DecidableEq, Repr

/-- `StateBuilder.__init__`: both fields default to `0`. -/
def StateBuilder.init : StateBuilder := ⟨0, 0⟩

/-- `StateBuilder.set_size(size)`. -/
def StateBuilder.set_size (b : StateBuilder) (size : Nat) : StateBuilder :=
  { b with size := size }

/-- `StateBuilder.set_unit(unit)`. -/
def StateBuilder.set_unit (b : StateBuilder) (unit : Int) : StateBuilder :=
  { b with unit := unit }

/-- `StateBuilder.build()`: constructs `State(self.size, self.unit)` with
no validation. -/
def StateBuilder.build (b : StateBuilder) : State :=
  State.init b.size b.unit

/-- Well-formedness of a board: the grid is exactly `size` rows of
`size` columns. -/
def Wf (s : State) : Prop :=
  s.board.length = s.size ∧ ∀ row ∈ s.board, row.length = s.size

instance (s : State) : Decidable (Wf s) := by
  unfold Wf; infer_instance

/-- Number of empty cells of a grid. -/
def emptyCount (board : List (List Int)) : Nat :=
  board.flatten.countP (fun x => x = EMPTY)

/-- Number of non-empty elements of a line. -/
def nonEmptyCount (l : List Int) : Nat :=
  l.countP (fun x => x ≠ EMPTY)

/-- A line is compacted for sentinel `e`: past any position holding the
sentinel, every later position holds the sentinel as well (equivalently,
every non-empty element precedes every empty one). -/
def Compacted (l : List Int) (e : Int) : Prop :=
  ∀ j, j < l.length → ∀ i, i < j → l.getD i 0 = e → l.getD j 0 = e

instance (l : List Int) (e : Int) : Decidable (Compacted l e) := by
  unfold Compacted; infer_instance

/-- A concrete 3 x 3 board whose first row is `[2, 2, 4]`. -/
def exBoard224 : State := ⟨3, 2, [[2, 2, 4], [0, 0, 0], [0, 0, 0]]⟩

/-- The list of flattened indices of empty cells that `seeded` builds. -/
def emptyIndices (s : State) : List Nat :=
  (s.board.flatten.enum.filter (fun p => p.2 = EMPTY)).map Prod.fst

/-- The flattened index `seeded` writes to, for random outcome `k`. -/
def seedIndex (s : State) (k : Nat) : Nat :=
  (emptyIndices s).getD (k % (emptyIndices s).length) 0

/-- The grid shape predicate: exactly `n` rows of `n` columns each. -/
def Shape (n : Nat) (b : List (List Int)) : Prop :=
  b.length = n ∧ ∀ row ∈ b, row.length = n

instance (n : Nat) (b : List (List Int)) : Decidable (Shape n b) := by
  unfold Shape; infer_instance

/-! ### Heap-level model of `copy.deepcopy`

Python's grid is a list of references to row objects; `collapsed` and
`seeded` mutate the row objects in place and never rebind `self._board`.
To state that a deep copy is independent of the original we model the
heap explicitly: a `Store` is the collection of allocated row objects
(indexed by allocation order) and a `StateRef` holds references to its
rows.  An operation on a `StateRef` computes the pure-value result on the
board it can see and writes the resulting rows back in place through its
references. -/

/-- The heap of allocated row objects, indexed by allocation order. -/
abbrev Store : Type := List (List Int)

/-- A board whose grid is a list of references into a `Store`. -/
structure StateRef where
  size : Nat
  unit : Int
  rowIds : List Nat

/-- The grid a `StateRef` sees: its row objects, in order. -/
def boardOf (σ : Store) (s : StateRef) : List (List Int) :=
  s.rowIds.map (fun i => σ.getD i [])

/-- `copy.deepcopy`: allocate fresh row objects holding copies of the
original's rows; the copy references only the fresh objects. -/
def deepcopy (σ : Store) (s : StateRef) : Store × StateRef :=
  (σ ++ boardOf σ s,
    ⟨s.size, s.unit, List.range' σ.length s.rowIds.length⟩)

/-- Write the given rows back into the row objects referenced by `ids`
(the net effect of Python's in-place cell assignments). -/
def writeBack : Store → List Nat → List (List Int) → Store
  | σ, i :: is', r :: rs => writeBack (σ.set i r) is' rs
  | σ, _, _ => σ

/-- `collapsed` on the heap: compute the value-level result on the board
the reference sees, then mutate its row objects in place. -/
def collapsedRef (σ : Store) (s : StateRef) (d : Direction) :
    Store × Bool :=
  let r := State.collapsed ⟨s.size, s.unit, boardOf σ s⟩ d
  (writeBack σ s.rowIds r.1.board, r.2)

/-- `seeded` on the heap: compute the value-level result on the board the
reference sees, then mutate its row objects in place. -/
def seededRef (σ : Store) (s : StateRef) (k : Nat) : Store × Int :=
  let r := State.seeded ⟨s.size, s.unit, boardOf σ s⟩ k
  (writeBack σ s.rowIds r.1.board, r.2)

/-- All references of a `StateRef` point at allocated row objects. -/
def ValidIn (σ : Store) (s : StateRef) : Prop :=
  ∀ i ∈ s.rowIds, i < σ.length

instance (σ : Store) (s : StateRef) : Decidable (ValidIn σ s) := by
  unfold ValidIn; infer_instance

end DQN2048

namespace DQN2048

/-! ## Theorems -/

/-- The boolean returned by `collapsed` is `true` exactly when the grid
after the transform differs from the grid before it. -/
lemma collapsed_flag_iff (s : State) (d : Direction) :
    (s.collapsed d).2 = true ↔ (s.collapsed d).1.board ≠ s.board := by
  simp [State.collapsed, State.clone, bne_iff_ne]

/-- C1: refuted as stated — `is_collapsible` is not total.  On the full
2 x 2 board `[[2,4],[8,16]]`, which has no empty cell and no
adjacent-equal pair, the vacuous guard `j < self.size` (inside
`for j in range(self.size)`) lets the scan read `row[j + 1]` at
`j = size - 1`, raising `IndexError`; the claim says it returns `false`
there. -/
theorem C1_is_collapsible_fails_on_full_board :
    State.is_collapsible ⟨2, 2, [[2, 4], [8, 16]]⟩ = none := by
  decide

/-- C2 counterexample: on the board with first row `[2,2,4]`, collapsing
LEFT twice is not idempotent: the second call changes the grid again
(`[4,4,0]` collapses to `[8,0,0]`) and returns `true`, not `false`. -/
theorem C2_counterexample :
    (((exBoard224.collapsed Direction.left).1.collapsed Direction.left).2
        = true) ∧
      (((exBoard224.collapsed Direction.left).1.collapsed
          Direction.left).1.board ≠
        (exBoard224.collapsed Direction.left).1.board) := by
  decide

/-- C2 amended: a second `collapsed(d)` call need not return `false`; what
holds is that the second call returns `false` exactly when it leaves the
grid as the first call left it. -/
theorem C2_amended_second_collapse_false_iff_unchanged
    (s : State) (d : Direction) :
    (((s.collapsed d).1.collapsed d).2 = false ↔
      ((s.collapsed d).1.collapsed d).1.board = (s.collapsed d).1.board) := by
  have h := collapsed_flag_iff (s.collapsed d).1 d
  constructor
  · intro hf
    by_contra hne
    have := h.mpr hne
    rw [hf] at this
    exact Bool.false_ne_true this
  · intro he
    by_contra hb
    have : (((s.collapsed d).1.collapsed d).2 = true) := by
      revert hb
      cases ((s.collapsed d).1.collapsed d).2 <;> simp
    exact (h.mp this) he

/-- C3: `collapsed(d)` returns `true` iff the grid after the transform
differs from the grid before it (as held by a clone taken beforehand),
and hence returns `false` when the grid is unchanged. -/
theorem C3_collapsed_true_iff_changed (s : State) (d : Direction) :
    (s.collapsed d).2 = true ↔ (s.collapsed d).1.board ≠ s.board :=
  collapsed_flag_iff s d

/-- C5: the single-line collapse toward the lower index maps `[0,2,2,4]`
to `[4,4,0,0]` and `[2,2,2,2]` to `[4,4,0,0]` (two pairwise merges from
the leading edge, never a quadruple merge of a freshly merged slot). -/
theorem C5_collapse_examples :
    State._collapse [0, 2, 2, 4] 0 = [4, 4, 0, 0] ∧
      State._collapse [2, 2, 2, 2] 0 = [4, 4, 0, 0] := by
  decide

/-- C9 counterexample: for the sentinel `4`, collapsing `[2,2,8]` merges
`2 + 2` into the sentinel value itself, producing `[4,8,4]`, in which an
empty element precedes a non-empty one — the output is not compacted for
an arbitrary empty-sentinel value. -/
theorem C9_counterexample :
    State._collapse [2, 2, 8] 4 = [4, 8, 4] ∧
      ¬ Compacted (State._collapse [2, 2, 8] 4) 4 := by
  decide

/-- C4 counterexample: with `unit = 0` (the builder's default), seeding
the 1 x 1 board `[[0]]` writes `0` into the empty cell, so the empty-cell
count stays `1` instead of dropping by one as the claim states. -/
theorem C4_counterexample :
    ((⟨1, 0, [[0]]⟩ : State).seeded 0).2 = (0 : Int) ∧
      ¬ (emptyCount ((⟨1, 0, [[0]]⟩ : State).seeded 0).1.board =
          emptyCount ((⟨1, 0, [[0]]⟩ : State).board) - 1) := by
  decide

/-- C10: a fresh `StateBuilder` defaults `size` and `unit` to `0`;
`build()` performs no validation and returns a board with a 0 x 0 grid,
on which `seeded()` returns the empty sentinel `0` (for every random
outcome `k`) without mutating anything. -/
theorem C10_builder_defaults :
    StateBuilder.init.size = 0 ∧ StateBuilder.init.unit = 0 ∧
      StateBuilder.init.build.board = [] ∧
      StateBuilder.init.build.size = 0 ∧
      ∀ k, StateBuilder.init.build.seeded k =
        (StateBuilder.init.build, EMPTY) := by
  refine ⟨rfl, rfl, rfl, rfl, fun k => rfl⟩

/-- One step of the collapse loop with sentinel `0` adds the processed
element to the accumulator's sum (an empty element adds `0`). -/
lemma collapseStep_sum (st : List Int × Bool) (x : Int) :
    (collapseStep 0 st x).1.sum = st.1.sum + x := by
  obtain ⟨acc, m⟩ := st
  by_cases hx : x = (0 : Int)
  · simp [collapseStep, hx]
  · rcases hL : acc.getLast? with _ | last
    · simp [collapseStep, hx, hL]
    · have hacc : acc.dropLast ++ [last] = acc :=
        List.dropLast_append_getLast? last hL
      by_cases hm : x = last ∧ m = false
      · have : collapseStep 0 (acc, m) x =
            (acc.dropLast ++ [last + x], true) := by
          simp only [collapseStep, if_neg hx]
          rw [hL]
          simp [hm.1, hm.2]
        rw [this]
        conv_rhs => rw [← hacc]
        simp [List.sum_append]
        ring
      · have : collapseStep 0 (acc, m) x = (acc ++ [x], false) := by
          simp only [collapseStep, if_neg hx]
          rw [hL]
          simp only [if_neg hm]
        rw [this]
        simp [List.sum_append]

/-- One step of the collapse loop grows the accumulator by at most one
slot, and only when the element is non-empty. -/
lemma collapseStep_length (e : Int) (st : List Int × Bool) (x : Int) :
    (collapseStep e st x).1.length ≤
      st.1.length + if x = e then 0 else 1 := by
  obtain ⟨acc, m⟩ := st
  by_cases hx : x = e
  · simp [collapseStep, hx]
  · rcases hL : acc.getLast? with _ | last
    · simp [collapseStep, hx, hL]
    · have hacc : acc.dropLast ++ [last] = acc :=
        List.dropLast_append_getLast? last hL
      have hlen : acc.dropLast.length + 1 = acc.length := by
        conv_rhs => rw [← hacc]
        simp
      by_cases hm : x = last ∧ m = false
      · have : collapseStep e (acc, m) x =
            (acc.dropLast ++ [last + x], true) := by
          simp only [collapseStep, if_neg hx]
          rw [hL]
          simp [hm.1, hm.2]
        rw [this]
        simp only [List.length_append, List.length_singleton, if_neg hx]
        omega
      · have : collapseStep e (acc, m) x = (acc ++ [x], false) := by
          simp only [collapseStep, if_neg hx]
          rw [hL]
          simp only [if_neg hm]
        rw [this]
        simp [if_neg hx]

/-- One step of the collapse loop with sentinel `0` keeps the accumulator
free of zeros: appended elements are non-zero and a merge doubles a
non-zero value. -/
lemma collapseStep_not_mem (st : List Int × Bool) (x : Int)
    (h : (0 : Int) ∉ st.1) : (0 : Int) ∉ (collapseStep 0 st x).1 := by
  obtain ⟨acc, m⟩ := st
  by_cases hx : x = (0 : Int)
  · simpa [collapseStep, hx] using h
  · rcases hL : acc.getLast? with _ | last
    · simp only [collapseStep, if_neg hx]
      rw [hL]
      intro hmem
      rcases List.mem_append.mp hmem with h1 | h1
      · exact h h1
      · exact hx (List.mem_singleton.mp h1).symm
    · by_cases hm : x = last ∧ m = false
      · have : collapseStep 0 (acc, m) x =
            (acc.dropLast ++ [last + x], true) := by
          simp only [collapseStep, if_neg hx]
          rw [hL]
          simp [hm.1, hm.2]
        rw [this]
        intro hmem
        rcases List.mem_append.mp hmem with h1 | h1
        · exact h (List.mem_of_mem_dropLast h1)
        · have h2 : (0 : Int) = last + x := List.mem_singleton.mp h1
          rw [← hm.1] at h2
          exact hx (add_self_eq_zero.mp h2.symm)
      · have : collapseStep 0 (acc, m) x = (acc ++ [x], false) := by
          simp only [collapseStep, if_neg hx]
          rw [hL]
          simp only [if_neg hm]
        rw [this]
        intro hmem
        rcases List.mem_append.mp hmem with h1 | h1
        · exact h h1
        · exact hx (List.mem_singleton.mp h1).symm

/-- Invariants of the whole collapse loop with sentinel `0`: the
accumulator's sum grows by the sum of the processed elements, its length
by at most the number of non-empty processed elements, and it never
acquires a zero entry. -/
lemma collapse_foldl_inv (xs : List Int) :
    ∀ st : List Int × Bool,
      (xs.foldl (collapseStep 0) st).1.sum = st.1.sum + xs.sum ∧
      (xs.foldl (collapseStep 0) st).1.length ≤
        st.1.length + xs.countP (fun x => x ≠ (0 : Int)) ∧
      ((0 : Int) ∉ st.1 → (0 : Int) ∉ (xs.foldl (collapseStep 0) st).1) := by
  induction xs with
  | nil => intro st; refine ⟨by simp, by simp, fun h => h⟩
  | cons x xs ih =>
      intro st
      rw [List.foldl_cons]
      obtain ⟨s1, s2, s3⟩ := ih (collapseStep 0 st x)
      refine ⟨?_, ?_, ?_⟩
      · rw [s1, collapseStep_sum]
        simp only [List.sum_cons]
        ring
      · have hstep := collapseStep_length 0 st x
        have hc : List.countP (fun x => x ≠ (0 : Int)) (x :: xs) =
            List.countP (fun x => x ≠ (0 : Int)) xs +
              if x = (0 : Int) then 0 else 1 := by
          rw [List.countP_cons]
          by_cases hx : x = (0 : Int) <;> simp [hx]
        rw [hc]
        omega
      · intro h0
        exact s3 (collapseStep_not_mem st x h0)

/-- For an arbitrary sentinel, the collapse loop's accumulator never gets
longer than the number of processed elements (plus its initial length). -/
lemma collapse_foldl_length (e : Int) (xs : List Int) :
    ∀ st : List Int × Bool,
      (xs.foldl (collapseStep e) st).1.length ≤ st.1.length + xs.length := by
  induction xs with
  | nil => intro st; simp
  | cons x xs ih =>
      intro st
      rw [List.foldl_cons]
      have h1 := ih (collapseStep e st x)
      have h2 := collapseStep_length e st x
      simp only [List.length_cons]
      by_cases hx : x = e
      · rw [if_pos hx] at h2; omega
      · rw [if_neg hx] at h2; omega

/-- C6: collapsing one line with the program's empty sentinel `0` never
increases the number of non-empty cells, and conserves the sum of the
cell values (merges only redistribute mass; padding adds zeros). -/
theorem C6_collapse_conserves (L : List Int) :
    nonEmptyCount (State._collapse L 0) ≤ nonEmptyCount L ∧
      (State._collapse L 0).sum = L.sum := by
  have h := collapse_foldl_inv L ([], false)
  obtain ⟨hsum, hlen, _⟩ := h
  constructor
  · show List.countP _ _ ≤ List.countP _ _
    unfold State._collapse
    rw [List.countP_append]
    have hrep : List.countP (fun x => x ≠ EMPTY)
        (List.replicate (L.length -
          (L.foldl (collapseStep 0) ([], false)).1.length) 0) = 0 := by
      rw [List.countP_eq_zero]
      intro a ha
      rw [List.eq_of_mem_replicate ha]
      simp [EMPTY]
    rw [hrep]
    have hle : List.countP (fun x => x ≠ EMPTY)
        (L.foldl (collapseStep 0) ([], false)).1 ≤
        (L.foldl (collapseStep 0) ([], false)).1.length :=
      List.countP_le_length _
    simp only [List.length_nil, Nat.zero_add, EMPTY] at hlen hle ⊢
    omega
  · unfold State._collapse
    rw [List.sum_append, List.sum_replicate]
    simp only [smul_zero, add_zero]
    simpa using hsum

/-- C9 amended: for every input array and every sentinel, the collapsed
line has the same length as the input; with the program's sentinel `0`
(but not an arbitrary sentinel, see the counterexample) the output is
compacted: no empty gap appears before a non-empty element. -/
theorem C9_amended_length_and_compaction (L : List Int) (e : Int) :
    (State._collapse L e).length = L.length ∧
      Compacted (State._collapse L 0) 0 := by
  constructor
  · have h := collapse_foldl_length e L ([], false)
    simp only [List.length_nil, Nat.zero_add] at h
    unfold State._collapse
    rw [List.length_append, List.length_replicate]
    omega
  · have h := (collapse_foldl_inv L ([], false)).2.2 (by simp)
    unfold State._collapse
    intro j hj i hij hi
    set acc := (L.foldl (collapseStep 0) ([], false)).1 with hacc
    by_cases hia : i < acc.length
    · exfalso
      rw [List.getD_append _ _ _ _ hia, List.getD_eq_getElem _ _ hia] at hi
      exact h (hi ▸ List.getElem_mem hia)
    · push_neg at hia
      have hja : acc.length ≤ j := le_trans hia (Nat.le_of_lt hij)
      rw [List.getD_append_right _ _ _ _ hja]
      rw [List.getD_eq_getElem?_getD, List.getElem?_replicate]
      split <;> simp

/-- An in-place cell assignment preserves the grid shape. -/
lemma shape_setNested {n : Nat} {b : List (List Int)} (h : Shape n b)
    (r c : Nat) (v : Int) : Shape n (setNested b r c v) := by
  obtain ⟨hlen, hrows⟩ := h
  by_cases hr : r < b.length
  · constructor
    · rw [setNested, List.length_set]; exact hlen
    · intro row hrow
      rcases List.mem_or_eq_of_mem_set hrow with h1 | h1
      · exact hrows row h1
      · rw [h1, List.length_set, List.getD_eq_getElem _ _ hr]
        exact hrows _ (List.getElem_mem hr)
  · push_neg at hr
    rw [setNested, List.set_eq_of_length_le hr]
    exact ⟨hlen, hrows⟩

/-- A fold whose every step preserves the grid shape preserves it. -/
lemma shape_foldl {α : Type} {n : Nat}
    (g : List (List Int) → α → List (List Int))
    (hg : ∀ b a, Shape n b → Shape n (g b a)) :
    ∀ (l : List α) (b : List (List Int)), Shape n b → Shape n (l.foldl g b) := by
  intro l
  induction l with
  | nil => intro b hb; exact hb
  | cons x xs ih =>
      intro b hb
      rw [List.foldl_cons]
      exact ih _ (hg b x hb)

/-- Paving a line back into the grid preserves the grid shape. -/
lemma shape_paved {n : Nat} {b : List (List Int)} (h : Shape n b)
    (size : Nat) (d : Direction) (i : Nat) (a : List Int) :
    Shape n (State._paved b size d i a) := by
  simp only [State._paved]
  refine shape_foldl _ (fun b p hb => ?_) _ _ h
  dsimp only
  split
  · exact shape_setNested hb _ _ _
  · exact shape_setNested hb _ _ _

/-- `seeded` preserves well-formedness. -/
lemma wf_seeded (s : State) (k : Nat) (h : Wf s) : Wf (s.seeded k).1 := by
  simp only [State.seeded]
  split
  · exact h
  · exact shape_setNested h _ _ _

/-- `collapsed` preserves well-formedness. -/
lemma wf_collapsed (s : State) (d : Direction) (h : Wf s) :
    Wf (s.collapsed d).1 := by
  have : Shape s.size
      ((List.range s.size).foldl
        (fun b i =>
          State._paved b s.size d i
            (State._collapse (State._peel b d i) EMPTY))
        s.board) :=
    shape_foldl _ (fun b i hb => shape_paved hb _ _ _ _) _ _ h
  exact this

/-- C8: the grid shape is an invariant — a newly built board is exactly
`size` rows of `size` columns, and `seeded`, `collapsed` (in every
direction) and `clone` keep a well-formed board well formed. -/
theorem C8_shape_invariant (n : Nat) (u : Int) (s : State) (k : Nat)
    (d : Direction) (h : Wf s) :
    Wf (State.init n u) ∧ Wf (s.seeded k).1 ∧ Wf (s.collapsed d).1 ∧
      Wf s.clone := by
  refine ⟨⟨by simp [State.init], ?_⟩, wf_seeded s k h, wf_collapsed s d h, h⟩
  intro row hrow
  have hrow2 : row ∈ List.replicate n (List.replicate n EMPTY) := by
    simpa [State.init] using hrow
  have hr := List.eq_of_mem_replicate hrow2
  rw [hr]
  simp [State.init]

/-- C8 witness: the shape invariant applied to a concrete 2 x 2 board. -/
theorem C8_witness :
    Wf (⟨2, 2, [[0, 2], [2, 4]]⟩ : State) ∧
      (Wf (State.init 1 2) ∧
        Wf ((⟨2, 2, [[0, 2], [2, 4]]⟩ : State).seeded 0).1 ∧
        Wf ((⟨2, 2, [[0, 2], [2, 4]]⟩ : State).collapsed Direction.left).1 ∧
        Wf (⟨2, 2, [[0, 2], [2, 4]]⟩ : State).clone) :=
  ⟨by decide,
    C8_shape_invariant 1 2 ⟨2, 2, [[0, 2], [2, 4]]⟩ 0 Direction.left
      (by decide)⟩

/-- Extending the store does not change what a valid reference sees. -/
lemma boardOf_append (σ τ : Store) (s : StateRef) (h : ValidIn σ s) :
    boardOf (σ ++ τ) s = boardOf σ s := by
  unfold boardOf
  apply List.map_congr_left
  intro i hi
  exact List.getD_append _ _ _ _ (h i hi)

/-- The freshly allocated references see exactly the appended rows. -/
lemma map_getD_range_append (rows : List (List Int)) :
    ∀ σ : Store,
      (List.range' σ.length rows.length).map
        (fun i => (σ ++ rows).getD i []) = rows := by
  induction rows with
  | nil => intro σ; simp
  | cons r rs ih =>
      intro σ
      rw [List.append_cons, List.length_cons, List.range'_succ,
        List.map_cons]
      simp only [List.cons.injEq]
      constructor
      · rw [List.getD_append _ _ _ _ (by simp)]
        rw [List.getD_append_right _ _ _ _ (le_refl _)]
        simp
      · have h2 := ih (σ ++ [r])
        simpa using h2

/-- Writing rows back through references that all avoid index `j` leaves
the row object at `j` unchanged. -/
lemma getD_writeBack (j : Nat) :
    ∀ (ids : List Nat) (rows : List (List Int)) (σ : Store),
      (∀ i ∈ ids, i ≠ j) →
      (writeBack σ ids rows).getD j [] = σ.getD j [] := by
  intro ids
  induction ids with
  | nil =>
      intro rows σ _
      cases rows <;> simp [writeBack]
  | cons i is' ih =>
      intro rows σ h
      cases rows with
      | nil => simp [writeBack]
      | cons r rs =>
          show (writeBack (σ.set i r) is' rs).getD j [] = σ.getD j []
          rw [ih rs _ (fun x hx => h x (List.mem_cons_of_mem _ hx))]
          rw [List.getD_eq_getElem?_getD, List.getD_eq_getElem?_getD,
            List.getElem?_set_ne (h i (List.mem_cons_self _ _))]

/-- Writing rows back through references disjoint from a reference's own
leaves that reference's view of the board unchanged. -/
lemma boardOf_writeBack (σ : Store) (s : StateRef) (ids : List Nat)
    (rows : List (List Int)) (h : ∀ j ∈ s.rowIds, ∀ i ∈ ids, i ≠ j) :
    boardOf (writeBack σ ids rows) s = boardOf σ s := by
  unfold boardOf
  apply List.map_congr_left
  intro j hj
  exact getD_writeBack j ids rows σ (fun i hi => h j hj i hi)

/-- Every reference of the deep copy is disjoint from every reference of
the original (the copy's rows are freshly allocated). -/
lemma deepcopy_disjoint (σ : Store) (s : StateRef) (h : ValidIn σ s) :
    ∀ j ∈ s.rowIds, ∀ i ∈ (deepcopy σ s).2.rowIds, i ≠ j := by
  intro j hj i hi
  have h1 : σ.length ≤ i := (List.mem_range'_1.mp hi).1
  have h2 : j < σ.length := h j hj
  omega

/-- C7: `clone()` (deep copy) yields a board equal to the original, and
mutating the clone through `collapsed` or `seeded` never changes the
grid the original references see. -/
theorem C7_clone_independent (σ : Store) (s : StateRef) (d : Direction)
    (k : Nat) (h : ValidIn σ s) :
    boardOf (deepcopy σ s).1 (deepcopy σ s).2 = boardOf σ s ∧
      boardOf (collapsedRef (deepcopy σ s).1 (deepcopy σ s).2 d).1 s =
        boardOf σ s ∧
      boardOf (seededRef (deepcopy σ s).1 (deepcopy σ s).2 k).1 s =
        boardOf σ s := by
  have hlen : s.rowIds.length = (boardOf σ s).length := by
    unfold boardOf
    rw [List.length_map]
  have hfresh : boardOf (deepcopy σ s).1 (deepcopy σ s).2 = boardOf σ s := by
    show (List.range' σ.length s.rowIds.length).map
        (fun i => (σ ++ boardOf σ s).getD i []) = boardOf σ s
    rw [hlen]
    exact map_getD_range_append (boardOf σ s) σ
  have hext : boardOf (deepcopy σ s).1 s = boardOf σ s :=
    boardOf_append σ (boardOf σ s) s h
  have hdisj := deepcopy_disjoint σ s h
  refine ⟨hfresh, ?_, ?_⟩
  · have hwb := boardOf_writeBack (deepcopy σ s).1 s
      (deepcopy σ s).2.rowIds
      (State.collapsed
        ⟨(deepcopy σ s).2.size, (deepcopy σ s).2.unit,
          boardOf (deepcopy σ s).1 (deepcopy σ s).2⟩ d).1.board
      hdisj
    exact hwb.trans hext
  · have hwb := boardOf_writeBack (deepcopy σ s).1 s
      (deepcopy σ s).2.rowIds
      (State.seeded
        ⟨(deepcopy σ s).2.size, (deepcopy σ s).2.unit,
          boardOf (deepcopy σ s).1 (deepcopy σ s).2⟩ k).1.board
      hdisj
    exact hwb.trans hext

/-- C7 witness: clone independence on a concrete store holding one
1 x 1 board. -/
theorem C7_witness :
    ValidIn [[0]] ⟨1, 2, [0]⟩ ∧
      (boardOf (deepcopy [[0]] ⟨1, 2, [0]⟩).1
          (deepcopy [[0]] ⟨1, 2, [0]⟩).2 = boardOf [[0]] ⟨1, 2, [0]⟩ ∧
        boardOf (collapsedRef (deepcopy [[0]] ⟨1, 2, [0]⟩).1
            (deepcopy [[0]] ⟨1, 2, [0]⟩).2 Direction.left).1 ⟨1, 2, [0]⟩ =
          boardOf [[0]] ⟨1, 2, [0]⟩ ∧
        boardOf (seededRef (deepcopy [[0]] ⟨1, 2, [0]⟩).1
            (deepcopy [[0]] ⟨1, 2, [0]⟩).2 0).1 ⟨1, 2, [0]⟩ =
          boardOf [[0]] ⟨1, 2, [0]⟩) :=
  ⟨by decide,
    C7_clone_independent [[0]] ⟨1, 2, [0]⟩ Direction.left 0 (by decide)⟩

/-- The number of empty-cell indices collected by `seeded` equals the
number of cells holding the sentinel. -/
lemma length_empty_indices (e : Int) :
    ∀ (l : List Int) (n : Nat),
      (((List.enumFrom n l).filter (fun p => p.2 = e)).map Prod.fst).length
        = l.countP (fun x => x = e) := by
  intro l
  induction l with
  | nil => intro n; simp
  | cons x xs ih =>
      intro n
      show ((((n, x) :: List.enumFrom (n + 1) xs).filter
          (fun p => p.2 = e)).map Prod.fst).length = _
      rw [List.filter_cons, List.countP_cons]
      by_cases hx : x = e
      · rw [if_pos (by simpa using hx), if_pos (by simpa using hx)]
        rw [List.map_cons, List.length_cons, ih]
      · rw [if_neg (by simpa using hx), if_neg (by simpa using hx)]
        rw [ih, Nat.add_zero]

/-- Every index collected by `seeded` points at a cell holding the
sentinel. -/
lemma mem_empty_indices (e : Int) :
    ∀ (l : List Int) (n i : Nat),
      i ∈ ((List.enumFrom n l).filter (fun p => p.2 = e)).map Prod.fst →
      n ≤ i ∧ i - n < l.length ∧ l.getD (i - n) 0 = e := by
  intro l
  induction l with
  | nil => intro n i hi; simp at hi
  | cons x xs ih =>
      intro n i hi
      have hstep : ∀ hi2 : i ∈ ((List.enumFrom (n + 1) xs).filter
          (fun p => p.2 = e)).map Prod.fst,
          n ≤ i ∧ i - n < (x :: xs).length ∧ (x :: xs).getD (i - n) 0 = e := by
        intro hi2
        obtain ⟨h1, h2, h3⟩ := ih (n + 1) i hi2
        refine ⟨by omega, by simp; omega, ?_⟩
        have hsub : i - n = (i - (n + 1)) + 1 := by omega
        rw [hsub, List.getD_cons_succ]
        exact h3
      rw [show List.enumFrom n (x :: xs) =
          (n, x) :: List.enumFrom (n + 1) xs from rfl,
        List.filter_cons] at hi
      by_cases hx : x = e
      · rw [if_pos (by simpa using hx), List.map_cons] at hi
        rcases List.mem_cons.mp hi with hi1 | hi2
        · subst hi1
          refine ⟨le_refl _, by simp, ?_⟩
          rw [Nat.sub_self, List.getD_cons_zero]
          exact hx
        · exact hstep hi2
      · rw [if_neg (by simpa using hx)] at hi
        exact hstep hi

/-- Writing through `board[i // n][i % n]` on a grid of `n`-length rows
is a single-point update of the flattened grid. -/
lemma flatten_setNested (n : Nat) (v : Int) :
    ∀ b : List (List Int), (∀ row ∈ b, row.length = n) → 0 < n →
      ∀ i, i < b.flatten.length →
      (setNested b (i / n) (i % n) v).flatten = b.flatten.set i v := by
  intro b
  induction b with
  | nil => intro _ _ i hi; simp at hi
  | cons row rest ih =>
      intro hrows hn i hi
      have hrow : row.length = n := hrows row (List.mem_cons_self _ _)
      have hflat : (row :: rest).flatten = row ++ rest.flatten :=
        List.flatten_cons
      by_cases hin : i < n
      · rw [Nat.div_eq_of_lt hin, Nat.mod_eq_of_lt hin]
        show ((row :: rest).set 0
            (((row :: rest).getD 0 []).set i v)).flatten = _
        rw [List.getD_cons_zero]
        show (row.set i v :: rest).flatten = (row :: rest).flatten.set i v
        rw [List.flatten_cons, hflat,
          List.set_append_left _ _ (by rw [hrow]; exact hin)]
      · push_neg at hin
        rw [Nat.div_eq_sub_div hn hin, Nat.mod_eq_sub_mod hin]
        show ((row :: rest).set ((i - n) / n + 1)
            (((row :: rest).getD ((i - n) / n + 1) []).set ((i - n) % n)
              v)).flatten = _
        rw [List.getD_cons_succ]
        show (row :: setNested rest ((i - n) / n) ((i - n) % n) v).flatten
            = (row :: rest).flatten.set i v
        have hi2 : i - n < rest.flatten.length := by
          rw [hflat, List.length_append, hrow] at hi
          omega
        rw [List.flatten_cons,
          ih (fun r hr => hrows r (List.mem_cons_of_mem _ hr)) hn _ hi2,
          hflat, List.set_append_right _ _ (by rw [hrow]; exact hin), hrow]

/-- Overwriting a cell that holds the sentinel with a non-sentinel value
decreases the sentinel count by exactly one. -/
lemma countP_set (e v : Int) (hv : v ≠ e) :
    ∀ (l : List Int) (i : Nat), i < l.length → l.getD i 0 = e →
      (l.set i v).countP (fun x => x = e) =
        l.countP (fun x => x = e) - 1 := by
  intro l
  induction l with
  | nil => intro i hi; simp at hi
  | cons x xs ih =>
      intro i hi hget
      cases i with
      | zero =>
          rw [List.getD_cons_zero] at hget
          show List.countP _ (v :: xs) = _
          rw [List.countP_cons, List.countP_cons,
            if_neg (by simpa using hv), if_pos (by simpa using hget)]
          omega
      | succ i =>
          rw [List.getD_cons_succ] at hget
          have hi2 : i < xs.length := by simpa using hi
          have hpos : 0 < xs.countP (fun x => x = e) := by
            rw [List.countP_pos_iff]
            refine ⟨xs[i], List.getElem_mem hi2, ?_⟩
            rw [← List.getD_eq_getElem xs 0 hi2, hget]
            simp
          show List.countP _ (x :: xs.set i v) = _
          rw [List.countP_cons, List.countP_cons, ih i hi2 hget]
          omega

/-- The length of the empty-index list that `seeded` builds equals the
board's empty-cell count. -/
lemma seeded_indices_length (s : State) :
    (emptyIndices s).length = emptyCount s.board := by
  rw [emptyIndices,
    show s.board.flatten.enum = List.enumFrom 0 s.board.flatten from rfl,
    length_empty_indices]
  rfl

/-- On a board with no empty cell, `seeded` returns the empty sentinel
and the untouched state. -/
lemma seeded_eq_zero (s : State) (k : Nat)
    (h : (emptyIndices s).length = 0) : s.seeded k = (s, EMPTY) := by
  have h2 : ((s.board.flatten.enum.filter (fun p => p.2 = EMPTY)).map
      Prod.fst).length = 0 := by
    simpa [emptyIndices] using h
  simp only [State.seeded]
  rw [if_pos h2]

/-- On a board with an empty cell, `seeded` writes `unit` at the chosen
flattened index and returns `unit`. -/
lemma seeded_eq_pos (s : State) (k : Nat)
    (h : (emptyIndices s).length ≠ 0) :
    s.seeded k = (⟨s.size, s.unit,
      setNested s.board (seedIndex s k / s.size) (seedIndex s k % s.size)
        s.unit⟩, s.unit) := by
  have h2 : ¬ ((s.board.flatten.enum.filter (fun p => p.2 = EMPTY)).map
      Prod.fst).length = 0 := by
    simpa [emptyIndices] using h
  simp only [State.seeded, seedIndex, emptyIndices]
  rw [if_neg h2]

/-- The chosen seed index is one of the collected empty indices. -/
lemma seedIndex_mem (s : State) (k : Nat)
    (h : (emptyIndices s).length ≠ 0) :
    seedIndex s k ∈ emptyIndices s := by
  have hk : k % (emptyIndices s).length < (emptyIndices s).length :=
    Nat.mod_lt _ (Nat.pos_of_ne_zero h)
  rw [seedIndex, List.getD_eq_getElem _ _ hk]
  exact List.getElem_mem hk

/-- C4 amended: on a full board `seeded` returns the empty sentinel and
leaves the state untouched; on a board with an empty cell it returns
`unit` and performs a single-point update of the flattened grid, setting
a previously empty cell to `unit` and leaving every other cell
unchanged; when `unit` is not itself the empty sentinel (the claim fails
for `unit = 0`, see the counterexample) the empty-cell count drops by
exactly one. -/
theorem C4_amended_seeded_spec (s : State) (k : Nat) (h : Wf s) :
    (emptyCount s.board = 0 → s.seeded k = (s, EMPTY)) ∧
      (emptyCount s.board ≠ 0 →
        (s.seeded k).2 = s.unit ∧
        (s.seeded k).1.size = s.size ∧
        (s.seeded k).1.unit = s.unit ∧
        ∃ i, i < s.board.flatten.length ∧
          s.board.flatten.getD i 0 = EMPTY ∧
          (s.seeded k).1.board.flatten = s.board.flatten.set i s.unit ∧
          (s.unit ≠ EMPTY →
            emptyCount (s.seeded k).1.board = emptyCount s.board - 1)) := by
  constructor
  · intro h0
    exact seeded_eq_zero s k (by rw [seeded_indices_length]; exact h0)
  · intro h0
    have hlen : (emptyIndices s).length ≠ 0 := by
      rw [seeded_indices_length]; exact h0
    have hmem := seedIndex_mem s k hlen
    have hmem2 : seedIndex s k ∈
        ((List.enumFrom 0 s.board.flatten).filter
          (fun p => p.2 = EMPTY)).map Prod.fst := by
      simpa [emptyIndices] using hmem
    obtain ⟨_, hlt, hget⟩ :=
      mem_empty_indices EMPTY s.board.flatten 0 (seedIndex s k) hmem2
    rw [Nat.sub_zero] at hlt hget
    have hsz : 0 < s.size := by
      by_contra hz
      push_neg at hz
      have hz0 : s.size = 0 := Nat.le_zero.mp hz
      have hbnil : s.board = [] :=
        List.eq_nil_of_length_eq_zero (by rw [h.1, hz0])
      rw [hbnil] at hlt
      simp at hlt
    have hflat : (s.seeded k).1.board.flatten =
        s.board.flatten.set (seedIndex s k) s.unit := by
      rw [seeded_eq_pos s k hlen]
      exact flatten_setNested s.size s.unit s.board h.2 hsz _ hlt
    refine ⟨by rw [seeded_eq_pos s k hlen], by rw [seeded_eq_pos s k hlen],
      by rw [seeded_eq_pos s k hlen],
      ⟨seedIndex s k, hlt, hget, hflat, ?_⟩⟩
    intro hu
    show (s.seeded k).1.board.flatten.countP (fun x => x = EMPTY) =
      s.board.flatten.countP (fun x => x = EMPTY) - 1
    rw [hflat]
    exact countP_set EMPTY s.unit hu s.board.flatten _ hlt hget

/-- C4 witness: the amended `seeded` specification applied to a concrete
2 x 2 board with one empty cell and `unit = 2`. -/
theorem C4_witness :
    Wf (⟨2, 2, [[0, 2], [4, 8]]⟩ : State) ∧
      ((emptyCount (⟨2, 2, [[0, 2], [4, 8]]⟩ : State).board = 0 →
        (⟨2, 2, [[0, 2], [4, 8]]⟩ : State).seeded 0 =
          (⟨2, 2, [[0, 2], [4, 8]]⟩, EMPTY)) ∧
      (emptyCount (⟨2, 2, [[0, 2], [4, 8]]⟩ : State).board ≠ 0 →
        ((⟨2, 2, [[0, 2], [4, 8]]⟩ : State).seeded 0).2 =
          (⟨2, 2, [[0, 2], [4, 8]]⟩ : State).unit ∧
        ((⟨2, 2, [[0, 2], [4, 8]]⟩ : State).seeded 0).1.size =
          (⟨2, 2, [[0, 2], [4, 8]]⟩ : State).size ∧
        ((⟨2, 2, [[0, 2], [4, 8]]⟩ : State).seeded 0).1.unit =
          (⟨2, 2, [[0, 2], [4, 8]]⟩ : State).unit ∧
        ∃ i, i < (⟨2, 2, [[0, 2], [4, 8]]⟩ : State).board.flatten.length ∧
          (⟨2, 2, [[0, 2], [4, 8]]⟩ : State).board.flatten.getD i 0
            = EMPTY ∧
          ((⟨2, 2, [[0, 2], [4, 8]]⟩ : State).seeded 0).1.board.flatten =
            (⟨2, 2, [[0, 2], [4, 8]]⟩ : State).board.flatten.set i
              (⟨2, 2, [[0, 2], [4, 8]]⟩ : State).unit ∧
          ((⟨2, 2, [[0, 2], [4, 8]]⟩ : State).unit ≠ EMPTY →
            emptyCount ((⟨2, 2, [[0, 2], [4, 8]]⟩ : State).seeded 0).1.board
              = emptyCount (⟨2, 2, [[0, 2], [4, 8]]⟩ : State).board - 1))) :=
  ⟨by decide, C4_amended_seeded_spec ⟨2, 2, [[0, 2], [4, 8]]⟩ 0 (by decide)⟩

end DQN2048
